import Mathlib

/-!
Verification of a minimal push-based reactive-stream engine (src/main.ts).

The source defines a class `Signal<T>` (a stream given by its `subscribe`
function), a multicast hub `Subject<T>` extending `Signal<T>` with two
`Set`s of registered callbacks and deferred (`queueMicrotask`) fan-out in
`dispatch`/`complete`, and the combinators `map`, `filter`, `of`, `merge`
and the feedback operator `loop`.

Two shallow embeddings are developed, both translated from the source:

1. An event-loop machine (`Mach`) for the `Subject` and `Signal.loop`
   claims.  Callbacks are identified by table indices (JS `Set`s key by
   function identity); the membership sets are insertion-ordered
   duplicate-free lists (JS `Set` iteration order); `queueMicrotask` is a
   FIFO task queue; invocations of external callbacks and promise
   resolutions are recorded in an event log.

2. A synchronous subscription-trace model (`SigSub`) for `of`, `map`,
   `filter` and the completion-counting logic of `merge`, whose subscribe
   bodies are synchronous in the source.
-/

set_option autoImplicit false

/-! ### JS `Set` operations (insertion-ordered, identity-keyed) -/

/-- JS `Set.prototype.add`: appends unless already a member (insertion order kept,
re-adding an existing member does not move it). -/
def setAdd {α : Type} [DecidableEq α] (s : List α) (x : α) : List α :=
  if x ∈ s then s else s ++ [x]

/-- JS `Set.prototype.delete`: removes the member if present. -/
def setDelete {α : Type} [DecidableEq α] (s : List α) (x : α) : List α :=
  s.filter (fun y => y ≠ x)

/-! ### The event-loop machine -/

/-- Behaviour of a value callback (`Dispatch<T>`) registered in a `Subject`.
`ext tag` is an external consumer callback (its invocations are logged);
`route s` is `source.dispatch.bind(source)` for subject `s`, as created in
`Signal.loop` (src/main.ts:39). -/
inductive DBeh where
  | ext (tag : Nat)
  | route (s : Nat)
deriving DecidableEq

/-- Behaviour of a completion callback (`Complete`).  `ext tag` is an external
consumer callback; `route s` is `source.complete.bind(source)`
(src/main.ts:40). -/
inductive CBeh where
  | ext (tag : Nat)
  | route (s : Nat)
deriving DecidableEq

/-- The two membership sets of a `Subject` (src/main.ts:84-85): value
callbacks (`dispatchs`) and completion callbacks (`completes`), stored as
insertion-ordered lists of callback ids. -/
structure SubjSt where
  dispatchs : List Nat
  completes : List Nat
deriving DecidableEq

/-- A pending microtask.  `fanValue`/`fanComplete` are the callbacks queued by
`Subject.dispatch`/`Subject.complete` via `queueMicrotask`
(src/main.ts:101, 112); `pid` identifies the promise resolved at the end of
the fan-out.  `marker` is inert and only used to delimit an `await`. -/
inductive MTask (V : Type) where
  | fanValue (s : Nat) (v : V) (pid : Nat)
  | fanComplete (s : Nat) (pid : Nat)
  | marker
deriving DecidableEq

/-- Observable events: invocation of an external value callback, invocation of
an external completion callback, and resolution of the promise returned by
`Subject.dispatch`/`Subject.complete`. -/
inductive Event (V : Type) where
  | value (tag : Nat) (v : V)
  | completed (tag : Nat)
  | resolved (pid : Nat)
deriving DecidableEq

/-- The machine: all live `Subject`s (indexed by creation order), the callback
behaviour tables (indexed by callback identity), the microtask queue, the
event log, and a counter for fresh promise ids. -/
structure Mach (V : Type) where
  subjects : List SubjSt
  dcbs : List DBeh
  ccbs : List CBeh
  queue : List (MTask V)
  log : List (Event V)
  nextPid : Nat
deriving DecidableEq

/-- Membership sets of subject `s` (out-of-range reads give empty sets; all
reachable accesses are in range). -/
def getSubj {V : Type} (m : Mach V) (s : Nat) : SubjSt :=
  m.subjects.getD s ⟨[], []⟩

/-- Replace the membership sets of subject `s`. -/
def setSubj {V : Type} (m : Mach V) (s : Nat) (f : SubjSt → SubjSt) : Mach V :=
  { m with subjects := m.subjects.set s (f (getSubj m s)) }

/-- Body of the `Subject` constructor's subscribe closure (src/main.ts:88-90):
`this.dispatchs.add(dispatch); this.completes.add(complete)`. -/
def Subject.subscribe {V : Type} (s : Nat) (d c : Nat) (m : Mach V) : Mach V :=
  setSubj m s (fun st => ⟨setAdd st.dispatchs d, setAdd st.completes c⟩)

/-- The unsubscribe closure returned by `Subject`'s subscribe
(src/main.ts:92-95): `this.dispatchs.delete(dispatch);
this.completes.delete(complete)`. -/
def Subject.unsubscribe {V : Type} (s : Nat) (d c : Nat) (m : Mach V) : Mach V :=
  setSubj m s (fun st => ⟨setDelete st.dispatchs d, setDelete st.completes c⟩)

/-- Method `Subject.dispatch(payload)` (src/main.ts:99-108): queues a microtask that
will fan the value out and then resolve the returned promise.  Returns the
machine and the promise id. -/
def Subject.dispatch {V : Type} (s : Nat) (v : V) (m : Mach V) : Mach V × Nat :=
  ({ m with
      queue := m.queue ++ [MTask.fanValue s v m.nextPid],
      nextPid := m.nextPid + 1 }, m.nextPid)

/-- Method `Subject.complete()` (src/main.ts:110-119): queues a microtask that will
fan the completion out and then resolve the returned promise. -/
def Subject.complete {V : Type} (s : Nat) (m : Mach V) : Mach V × Nat :=
  ({ m with
      queue := m.queue ++ [MTask.fanComplete s m.nextPid],
      nextPid := m.nextPid + 1 }, m.nextPid)

/-- Invoke one registered value callback with payload `v`
(the body of `this.dispatchs.forEach(...)`, src/main.ts:102-104).
An external callback logs its invocation; a routed callback is
`source.dispatch.bind(source)` and so schedules a new value fan-out
(its returned promise is discarded). -/
def runDCb {V : Type} (v : V) (m : Mach V) (i : Nat) : Mach V :=
  match m.dcbs[i]? with
  | some (DBeh.ext tag) => { m with log := m.log ++ [Event.value tag v] }
  | some (DBeh.route s) => (Subject.dispatch s v m).1
  | none => m

/-- Invoke one registered completion callback
(the body of `this.completes.forEach(...)`, src/main.ts:113-115). -/
def runCCb {V : Type} (m : Mach V) (i : Nat) : Mach V :=
  match m.ccbs[i]? with
  | some (CBeh.ext tag) => { m with log := m.log ++ [Event.completed tag] }
  | some (CBeh.route s) => (Subject.complete s m).1
  | none => m

/-- Run one queued microtask.  A fan-out iterates the subject's current
membership set in insertion order and then resolves its promise
(src/main.ts:101-106, 112-117). -/
def runTask {V : Type} (m : Mach V) : MTask V → Mach V
  | MTask.fanValue s v pid =>
      let m1 := (getSubj m s).dispatchs.foldl (runDCb v) m
      { m1 with log := m1.log ++ [Event.resolved pid] }
  | MTask.fanComplete s pid =>
      let m1 := (getSubj m s).completes.foldl runCCb m
      { m1 with log := m1.log ++ [Event.resolved pid] }
  | MTask.marker => m

/-- One step of the event loop: run the head of the microtask queue. -/
def step {V : Type} (m : Mach V) : Mach V :=
  match m.queue with
  | [] => m
  | t :: rest => runTask { m with queue := rest } t

/-- Run `n` event-loop steps. -/
def stepN {V : Type} : Nat → Mach V → Mach V
  | 0, m => m
  | n + 1, m => stepN n (step m)

/-- Awaiting a promise `p` where `p` is the promise of a just-completed synchronous async
body: the continuation is enqueued behind the currently queued microtasks, so
exactly the tasks already in the queue run before control resumes. -/
def awaitTurn {V : Type} (m : Mach V) : Mach V :=
  let m1 := stepN m.queue.length { m with queue := m.queue ++ [MTask.marker] }
  { m1 with queue := m1.queue.drop 1 }

/-! ### The feedback operator `Signal.loop` (src/main.ts:32-48) -/

/-- Allocation of the two routed callbacks passed to the sink's subscribe:
`source.dispatch.bind(source)` and `source.complete.bind(source)`
(src/main.ts:39-40).  `bind` creates fresh function objects, so fresh ids are
allocated in the behaviour tables.  Returns (value-callback id,
completion-callback id, machine). -/
def allocRoutes {V : Type} (s : Nat) (m : Mach V) : Nat × Nat × Mach V :=
  (m.dcbs.length, m.ccbs.length,
    { m with dcbs := m.dcbs ++ [DBeh.route s], ccbs := m.ccbs ++ [CBeh.route s] })

/-- A sink `Signal` as seen by `loop`: its subscribe, given the ids of the
dispatch and completion callbacks it is subscribed with, performs its
(synchronous) setup on the machine and returns the machine together with the
unsubscribe action `unsubSink`. -/
def Sink (V : Type) : Type :=
  Nat → Nat → Mach V → Mach V × (Mach V → Mach V)

/-- First half of the body of `Signal.loop`'s subscribe (src/main.ts:34-35):
`const source = new Subject(); await source.subscribe(dispatch, complete)`.
A fresh `Subject` is created (its index is returned), the caller's callbacks
`extD`/`extC` are registered on it, and the registration turn is awaited. -/
def Signal.loopBuild {V : Type} (extD extC : Nat) (m : Mach V) : Mach V × Nat :=
  let s := m.subjects.length
  let m1 : Mach V := { m with subjects := m.subjects ++ [⟨[], []⟩] }
  (awaitTurn (Subject.subscribe s extD extC m1), s)

/-- Second half of the body of `Signal.loop`'s subscribe (src/main.ts:37-46):
`const sink = handler(source); const unsubSink = await sink.subscribe(
source.dispatch.bind(source), source.complete.bind(source)); return () => {
source.complete(); unsubSink(); }`. -/
def Signal.loopAttach {V : Type} (handler : Nat → Sink V) (s : Nat) (m : Mach V) :
    Mach V × (Mach V → Mach V) :=
  (awaitTurn ((handler s) (allocRoutes s m).1 (allocRoutes s m).2.1 (allocRoutes s m).2.2).1,
   fun mm =>
     ((handler s) (allocRoutes s m).1 (allocRoutes s m).2.1 (allocRoutes s m).2.2).2
       ((Subject.complete s mm).1))

/-- The full body of `Signal.loop`'s subscribe (src/main.ts:33-47), given the
caller's callback ids `extD`/`extC`: build the hub, then attach the handler's
sink.  Returns the machine and the Unsubscribe handed to the loop's caller. -/
def Signal.loopSubscribe {V : Type} (handler : Nat → Sink V) (extD extC : Nat) (m : Mach V) :
    Mach V × (Mach V → Mach V) :=
  Signal.loopAttach handler (Signal.loopBuild extD extC m).2 (Signal.loopBuild extD extC m).1

/-- The identity handler `(source) => source`: the sink is the source
`Subject` itself, so the sink's subscribe is the `Subject`'s subscribe and its
unsubscribe deletes the two routed callbacks. -/
def identityHandler {V : Type} : Nat → Sink V :=
  fun s => fun d c m => (Subject.subscribe s d c m, Subject.unsubscribe s d c)

/-- A machine with no subjects and one external consumer (callback id 0 in
both tables), about to subscribe to a stream. -/
def initMach (V : Type) : Mach V :=
  { subjects := [], dcbs := [DBeh.ext 0], ccbs := [CBeh.ext 0],
    queue := [], log := [], nextPid := 0 }

/-- The machine after the external consumer subscribes to
`Signal.loop((source) => source)`: the cycle of C4. -/
def loopMach (V : Type) : Mach V :=
  (Signal.loopSubscribe identityHandler 0 0 (initMach V)).1

/-! ### Synchronous subscription-trace model for `of`, `map`, `filter`, `merge` -/

/-- What a downstream callback observes in the synchronous model. -/
inductive SEvent (V : Type) where
  | value (v : V)
  | completed
deriving DecidableEq

/-- A synchronous subscribe function: given the downstream value callback and
completion callback (each returning the trace of events its invocation
produces), it returns the trace of the whole subscription setup together with
the returned Unsubscribe (also modelled by the trace its invocation
produces). -/
def SigSub (E V : Type) : Type :=
  (V → List E) → (Unit → List E) → List E × (Unit → List E)

/-- Combinator `Signal.of(...payloads)` (src/main.ts:50-58): per subscription,
synchronously dispatches each payload in array order, then signals completion,
then returns a no-op Unsubscribe. -/
def Signal.of {V E : Type} (payloads : List V) : SigSub E V :=
  fun dispatch complete => (payloads.flatMap dispatch ++ complete (), fun _ => [])

/-- Combinator `Signal.map(fn)` (src/main.ts:15-21): delegates to the upstream subscribe,
transforming each payload through `fn` before dispatching; completion is
forwarded unchanged; the upstream Unsubscribe is returned verbatim. -/
def Signal.map {V U E : Type} (fn : V → U) (self : SigSub E V) : SigSub E U :=
  fun dispatch complete => self (fun payload => dispatch (fn payload)) complete

/-- Combinator `Signal.filter(fn)` (src/main.ts:22-31): delegates to the upstream
subscribe, dispatching only payloads satisfying the predicate; completion is
forwarded unchanged; the upstream Unsubscribe is returned verbatim. -/
def Signal.filter {V E : Type} (fn : V → Bool) (self : SigSub E V) : SigSub E V :=
  fun dispatch complete =>
    self (fun payload => if fn payload then dispatch payload else []) complete

/-- The canonical downstream value callback: records the value. -/
def obsD {V : Type} : V → List (SEvent V) := fun v => [SEvent.value v]

/-- The canonical downstream completion callback: records the completion. -/
def obsC {V : Type} : Unit → List (SEvent V) := fun _ => [SEvent.completed]

/-- The mutable state shared by `Signal.merge`'s input subscriptions
(src/main.ts:62-63): `let counter = signals.length; let completed = false`.
The counter is an integer because the source decrements it without a floor. -/
structure MergeSt where
  counter : Int
  completed : Bool
deriving DecidableEq

/-- The initial state of `merge` for `n` input streams (src/main.ts:62-63). -/
def mergeInit (n : Nat) : MergeSt :=
  ⟨(n : Int), false⟩

/-- The completion callback `merge` subscribes each input with
(src/main.ts:66-71): `if (--counter <= 0 && !completed) { complete();
completed = true; }`.  Returns the new state and the events produced by the
downstream `complete` call, if made. -/
def mergeOnComplete {E : Type} (complete : Unit → List E) (st : MergeSt) :
    MergeSt × List E :=
  let counter := st.counter - 1
  if counter ≤ 0 ∧ st.completed = false then
    (⟨counter, true⟩, complete ())
  else
    (⟨counter, st.completed⟩, [])

/-- Run a sequence of input events through `merge`'s callbacks: a value from
any input is forwarded to the downstream `dispatch` unchanged
(src/main.ts:66), a completion from any input runs the shared counter
callback.  The inputs all share one state, so the sequence represents an
arbitrary interleaving of the inputs. -/
def mergeRunEvents {V E : Type} (dispatch : V → List E) (complete : Unit → List E) :
    List (SEvent V) → MergeSt → MergeSt × List E
  | [], st => (st, [])
  | SEvent.value v :: rest, st =>
      let tail := mergeRunEvents dispatch complete rest st
      (tail.1, dispatch v ++ tail.2)
  | SEvent.completed :: rest, st =>
      let hd := mergeOnComplete complete st
      let tail := mergeRunEvents dispatch complete rest hd.1
      (tail.1, hd.2 ++ tail.2)

/-- Combinator `Signal.merge(...signals)` (src/main.ts:60-80) in the synchronous model:
each input is abstracted by the sequence of events it delivers; the counter is
initialised to the number of inputs and the concatenated event sequences are
run through the shared callbacks. -/
def Signal.mergeRun {V E : Type} (inputs : List (List (SEvent V)))
    (dispatch : V → List E) (complete : Unit → List E) : List E :=
  (mergeRunEvents dispatch complete inputs.flatten (mergeInit inputs.length)).2

/-! ### Structural lemmas about the machine -/

/-- The event an individual value callback contributes to the log when invoked
with `v`: external callbacks log their invocation, routed callbacks log
nothing (they only schedule). -/
def extValue {V : Type} (T : List DBeh) (v : V) (i : Nat) : Option (Event V) :=
  match T[i]? with
  | some (DBeh.ext tag) => some (Event.value tag v)
  | _ => none

/-- The event an individual completion callback contributes to the log. -/
def extCompleted {V : Type} (T : List CBeh) (i : Nat) : Option (Event V) :=
  match T[i]? with
  | some (CBeh.ext tag) => some (Event.completed tag)
  | _ => none

theorem runDCb_fields {V : Type} (v : V) (m : Mach V) (i : Nat) :
    (runDCb v m i).log = m.log ++ (extValue m.dcbs v i).toList
    ∧ (runDCb v m i).subjects = m.subjects
    ∧ (runDCb v m i).dcbs = m.dcbs
    ∧ (runDCb v m i).ccbs = m.ccbs := by
  cases h : m.dcbs[i]? with
  | none => simp [runDCb, extValue, h]
  | some b => cases b <;> simp [runDCb, extValue, h, Subject.dispatch]

theorem runCCb_fields {V : Type} (m : Mach V) (i : Nat) :
    (runCCb m i).log = m.log ++ (extCompleted m.ccbs i).toList
    ∧ (runCCb m i).subjects = m.subjects
    ∧ (runCCb m i).dcbs = m.dcbs
    ∧ (runCCb m i).ccbs = m.ccbs := by
  cases h : m.ccbs[i]? with
  | none => simp [runCCb, extCompleted, h]
  | some b => cases b <;> simp [runCCb, extCompleted, h, Subject.complete]

theorem foldl_runDCb_fields {V : Type} (v : V) (cbs : List Nat) (m : Mach V) :
    (cbs.foldl (runDCb v) m).log = m.log ++ cbs.filterMap (extValue m.dcbs v)
    ∧ (cbs.foldl (runDCb v) m).subjects = m.subjects
    ∧ (cbs.foldl (runDCb v) m).dcbs = m.dcbs
    ∧ (cbs.foldl (runDCb v) m).ccbs = m.ccbs := by
  induction cbs generalizing m with
  | nil => simp
  | cons i rest ih =>
    obtain ⟨h1, h2, h3, h4⟩ := runDCb_fields v m i
    obtain ⟨g1, g2, g3, g4⟩ := ih (runDCb v m i)
    rw [List.foldl_cons]
    refine ⟨?_, by rw [g2, h2], by rw [g3, h3], by rw [g4, h4]⟩
    rw [g1, h1, h3, List.filterMap_cons]
    cases he : extValue m.dcbs v i <;> simp [he]

theorem foldl_runCCb_fields {V : Type} (cbs : List Nat) (m : Mach V) :
    (cbs.foldl runCCb m).log = m.log ++ cbs.filterMap (extCompleted m.ccbs)
    ∧ (cbs.foldl runCCb m).subjects = m.subjects
    ∧ (cbs.foldl runCCb m).dcbs = m.dcbs
    ∧ (cbs.foldl runCCb m).ccbs = m.ccbs := by
  induction cbs generalizing m with
  | nil => simp
  | cons i rest ih =>
    obtain ⟨h1, h2, h3, h4⟩ := runCCb_fields m i
    obtain ⟨g1, g2, g3, g4⟩ := ih (runCCb m i)
    rw [List.foldl_cons]
    refine ⟨?_, by rw [g2, h2], by rw [g3, h3], by rw [g4, h4]⟩
    rw [g1, h1, h4, List.filterMap_cons]
    cases he : extCompleted m.ccbs i <;> simp [he]

/-- Running a `fanValue` task at the head of the queue: the current members of
the subject's value-callback set are invoked in insertion order (external ones
logging their invocation), and the promise of this `dispatch` call is resolved
strictly afterwards.  Membership sets and callback tables are untouched. -/
theorem step_fanValue {V : Type} (m : Mach V) (s : Nat) (v : V) (pid : Nat)
    (rest : List (MTask V)) :
    (step { m with queue := MTask.fanValue s v pid :: rest }).log
      = m.log ++ (getSubj m s).dispatchs.filterMap (extValue m.dcbs v)
          ++ [Event.resolved pid]
    ∧ (step { m with queue := MTask.fanValue s v pid :: rest }).subjects = m.subjects
    ∧ (step { m with queue := MTask.fanValue s v pid :: rest }).dcbs = m.dcbs
    ∧ (step { m with queue := MTask.fanValue s v pid :: rest }).ccbs = m.ccbs := by
  obtain ⟨h1, h2, h3, h4⟩ :=
    foldl_runDCb_fields v (getSubj m s).dispatchs { m with queue := rest }
  refine ⟨?_, ?_, ?_, ?_⟩ <;> simp [step, runTask] <;>
    simp only [show getSubj { m with queue := rest } s = getSubj m s from rfl] at h1 h2 h3 h4 ⊢ <;>
    simp [h1, h2, h3, h4]

/-- Running a `fanComplete` task at the head of the queue: the current members
of the subject's completion-callback set are invoked in insertion order, then
the promise of this `complete` call is resolved.  Membership sets and callback
tables are untouched. -/
theorem step_fanComplete {V : Type} (m : Mach V) (s : Nat) (pid : Nat)
    (rest : List (MTask V)) :
    (step { m with queue := MTask.fanComplete s pid :: rest }).log
      = m.log ++ (getSubj m s).completes.filterMap (extCompleted m.ccbs)
          ++ [Event.resolved pid]
    ∧ (step { m with queue := MTask.fanComplete s pid :: rest }).subjects = m.subjects
    ∧ (step { m with queue := MTask.fanComplete s pid :: rest }).dcbs = m.dcbs
    ∧ (step { m with queue := MTask.fanComplete s pid :: rest }).ccbs = m.ccbs := by
  obtain ⟨h1, h2, h3, h4⟩ :=
    foldl_runCCb_fields (getSubj m s).completes { m with queue := rest }
  refine ⟨?_, ?_, ?_, ?_⟩ <;> simp [step, runTask] <;>
    simp only [show getSubj { m with queue := rest } s = getSubj m s from rfl] at h1 h2 h3 h4 ⊢ <;>
    simp [h1, h2, h3, h4]

/-- Membership sets and callback tables are never mutated from within the
event loop: only direct `subscribe`/`unsubscribe` calls touch them. -/
theorem step_preserves {V : Type} (m : Mach V) :
    (step m).subjects = m.subjects ∧ (step m).dcbs = m.dcbs
    ∧ (step m).ccbs = m.ccbs := by
  match hq : m.queue with
  | [] => simp [step, hq]
  | MTask.fanValue s v pid :: rest =>
    obtain ⟨h1, h2, h3, h4⟩ :=
      foldl_runDCb_fields v (getSubj { m with queue := rest } s).dispatchs
        { m with queue := rest }
    refine ⟨?_, ?_, ?_⟩ <;> simp [step, hq, runTask] <;> simp [h2, h3, h4]
  | MTask.fanComplete s pid :: rest =>
    obtain ⟨h1, h2, h3, h4⟩ :=
      foldl_runCCb_fields (getSubj { m with queue := rest } s).completes
        { m with queue := rest }
    refine ⟨?_, ?_, ?_⟩ <;> simp [step, hq, runTask] <;> simp [h2, h3, h4]
  | MTask.marker :: rest => simp [step, hq, runTask]

theorem stepN_preserves {V : Type} (n : Nat) (m : Mach V) :
    (stepN n m).subjects = m.subjects ∧ (stepN n m).dcbs = m.dcbs
    ∧ (stepN n m).ccbs = m.ccbs := by
  induction n generalizing m with
  | zero => exact ⟨rfl, rfl, rfl⟩
  | succ k ih =>
    obtain ⟨h1, h2, h3⟩ := step_preserves m
    obtain ⟨g1, g2, g3⟩ := ih (step m)
    exact ⟨by rw [stepN, g1, h1], by rw [stepN, g2, h2], by rw [stepN, g3, h3]⟩

theorem awaitTurn_preserves {V : Type} (m : Mach V) :
    (awaitTurn m).subjects = m.subjects ∧ (awaitTurn m).dcbs = m.dcbs
    ∧ (awaitTurn m).ccbs = m.ccbs := by
  obtain ⟨h1, h2, h3⟩ :=
    stepN_preserves m.queue.length { m with queue := m.queue ++ [MTask.marker] }
  exact ⟨by simpa [awaitTurn] using h1, by simpa [awaitTurn] using h2,
    by simpa [awaitTurn] using h3⟩

/-! ### Lemmas about `merge`'s completion counting -/

/-- Recognizer for the completion event of the synchronous model. -/
def isCompletedEv {V : Type} : SEvent V → Bool
  | SEvent.completed => true
  | _ => false

/-- Once the latch is set, the counter callback never calls the downstream
`complete` again, whatever else the inputs deliver. -/
theorem mergeRunEvents_latched {V : Type} (es : List (SEvent V)) (i : Int) :
    ((mergeRunEvents obsD obsC es ⟨i, true⟩).2).countP isCompletedEv = 0 := by
  induction es generalizing i with
  | nil => rfl
  | cons e rest ih =>
    cases e with
    | value v => simp [mergeRunEvents, obsD, isCompletedEv, ih]
    | completed => simp [mergeRunEvents, mergeOnComplete, ih]

/-- With the latch unset and a positive counter `i`, the downstream completion
fires exactly once as soon as the `i`-th input completion arrives, and never
again. -/
theorem mergeRunEvents_counts {V : Type} (es : List (SEvent V)) (i : Int)
    (h : 1 ≤ i) :
    ((mergeRunEvents obsD obsC es ⟨i, false⟩).2).countP isCompletedEv
      = if i ≤ (es.countP isCompletedEv : Int) then 1 else 0 := by
  induction es generalizing i with
  | nil =>
    rw [if_neg (by simpa using (by omega : ¬ i ≤ (0 : Int)))]
    rfl
  | cons e rest ih =>
    cases e with
    | value v =>
      simp only [mergeRunEvents, List.countP_cons, List.countP_append]
      simpa [obsD, isCompletedEv] using ih i h
    | completed =>
      by_cases hi : i ≤ 1
      · have hi1 : i = 1 := le_antisymm hi h
        subst hi1
        have hlatch := mergeRunEvents_latched (V := V) rest 0
        simp only [mergeRunEvents, mergeOnComplete]
        rw [if_pos (by norm_num)]
        simp [obsC, isCompletedEv, List.countP_cons, hlatch,
          if_pos (by simp [isCompletedEv] : (1 : Int) ≤ ((rest.countP isCompletedEv : Nat) : Int) + 1)]
      · have h2 : (1 : Int) ≤ i - 1 := by omega
        simp only [mergeRunEvents, mergeOnComplete]
        rw [if_neg (by rintro ⟨ha, _⟩; omega)]
        simp only [List.nil_append, List.countP_cons, isCompletedEv, if_true]
        rw [ih (i - 1) h2]
        by_cases hc : i - 1 ≤ (rest.countP isCompletedEv : Int)
        · rw [if_pos hc, if_pos (by push_cast; omega)]
        · rw [if_neg hc, if_neg (by push_cast; omega)]

/-- If every input delivers exactly one completion, the concatenated event
sequence contains exactly as many completions as there are inputs. -/
theorem countP_flatten_ones {V : Type} (inputs : List (List (SEvent V)))
    (h : ∀ l ∈ inputs, l.countP isCompletedEv = 1) :
    inputs.flatten.countP isCompletedEv = inputs.length := by
  induction inputs with
  | nil => rfl
  | cons l rest ih =>
    have hl : l.countP isCompletedEv = 1 := h l (List.mem_cons_self l rest)
    have hr := ih (fun x hx => h x (List.mem_cons_of_mem l hx))
    simp [List.countP_append, hl, hr, Nat.add_comm]

/-- Claim C5: `merge` of `n ≥ 1` streams completes exactly once, once all `n`
inputs have completed, in whatever interleaving; the counter starts at the
number of inputs, each input completion decrements it, and the `completed`
latch blocks any second downstream completion (src/main.ts:60-80).  Part one
states this for an arbitrary interleaved event sequence containing at least
`n` input completions; part two for `merge` applied to inputs that each
complete exactly once. -/
theorem merge_completes_once {V : Type} :
    (∀ (es : List (SEvent V)) (n : Nat), 1 ≤ n →
      n ≤ es.countP isCompletedEv →
      ((mergeRunEvents obsD obsC es (mergeInit n)).2).countP isCompletedEv = 1)
    ∧ (∀ (inputs : List (List (SEvent V))), 1 ≤ inputs.length →
      (∀ l ∈ inputs, l.countP isCompletedEv = 1) →
      (Signal.mergeRun inputs obsD obsC).countP isCompletedEv = 1) := by
  constructor
  · intro es n h1 h2
    rw [mergeInit, mergeRunEvents_counts es (n : Int) (by exact_mod_cast h1)]
    rw [if_pos (by exact_mod_cast h2)]
  · intro inputs h1 h2
    have hc := countP_flatten_ones inputs h2
    rw [Signal.mergeRun, mergeInit,
      mergeRunEvents_counts inputs.flatten (inputs.length : Int) (by exact_mod_cast h1)]
    rw [if_pos (by rw [hc])]

/-- Witness for C5 at a concrete input: two inputs, the first completing, then
a value, then the second completing; the merged stream completes exactly
once. -/
theorem merge_completes_once_witness :
    (1 ≤ 2 ∧ 2 ≤ ([SEvent.completed, SEvent.value 3, SEvent.completed]
        : List (SEvent Nat)).countP isCompletedEv)
    ∧ ((mergeRunEvents obsD obsC
        ([SEvent.completed, SEvent.value 3, SEvent.completed] : List (SEvent Nat))
        (mergeInit 2)).2).countP isCompletedEv = 1 :=
  ⟨⟨by decide, by decide⟩,
    (@merge_completes_once Nat).1
      [SEvent.completed, SEvent.value 3, SEvent.completed] 2
      (by decide) (by decide)⟩

/-- Claim C9: `merge` applied to zero input streams subscribes to nothing, so
a subscription to the merged stream forwards no values and never invokes the
downstream completion (the counter callback of src/main.ts:66-71 is never
run); the latch also still shows no completion was signalled. -/
theorem merge_zero_inputs {V E : Type} (dispatch : V → List E)
    (complete : Unit → List E) :
    Signal.mergeRun [] dispatch complete = []
    ∧ (mergeRunEvents dispatch complete [] (mergeInit 0)).1
        = ⟨0, false⟩ :=
  ⟨rfl, rfl⟩

/-- Claim C6: per subscription, `Signal.of(...payloads)` dispatches exactly
the payloads downstream in array order, then invokes the completion callback,
and returns a no-op Unsubscribe (src/main.ts:50-58).  With the canonical
observer the trace is the payloads in order followed by exactly one completion
event, so no value follows the completion. -/
theorem of_trace {V : Type} (payloads : List V) :
    (∀ (E : Type) (dispatch : V → List E) (complete : Unit → List E),
      (Signal.of payloads dispatch complete).1
        = payloads.flatMap dispatch ++ complete ()
      ∧ (Signal.of payloads dispatch complete).2 = fun _ => [])
    ∧ (Signal.of payloads obsD obsC).1
        = payloads.map SEvent.value ++ [SEvent.completed]
    ∧ ((Signal.of payloads obsD obsC).1).countP isCompletedEv = 1 := by
  refine ⟨fun E dispatch complete => ⟨rfl, rfl⟩, ?_, ?_⟩
  · show payloads.flatMap obsD ++ obsC () = payloads.map SEvent.value ++ [SEvent.completed]
    induction payloads with
    | nil => rfl
    | cons v rest ih => simpa [obsD] using ih
  · show (payloads.flatMap obsD ++ obsC ()).countP isCompletedEv = 1
    induction payloads with
    | nil => rfl
    | cons v rest ih => simpa [obsD, isCompletedEv] using ih

/-- Claim C7: `map(fn)` followed by `filter(predicate)` over any source is
the same subscription as filtering the source by the composed predicate and
then mapping (src/main.ts:15-31); concretely, over a source emitting
1, 2, 3, 4, doubling then keeping values above 4 yields exactly 6 then 8
before the completion. -/
theorem map_filter_compose :
    (∀ (V U E : Type) (f : V → U) (p : U → Bool) (src : SigSub E V),
      Signal.filter p (Signal.map f src)
        = Signal.map f (Signal.filter (fun x => p (f x)) src))
    ∧ (Signal.filter (fun x => decide (4 < x))
        (Signal.map (fun x => 2 * x) (Signal.of [1, 2, 3, 4])) obsD obsC).1
        = [SEvent.value 6, SEvent.value 8, SEvent.completed] :=
  ⟨fun V U E f p src => rfl, by decide⟩

/-! ### Small list lemmas for the membership sets -/

theorem listGetD_append_length {α : Type} (l : List α) (x d : α) :
    (l ++ [x]).getD l.length d = x := by
  induction l with
  | nil => rfl
  | cons a t ih => simp [ih]

theorem listGetD_set_self {α : Type} (l : List α) (i : Nat) (x d : α)
    (h : i < l.length) : (l.set i x).getD i d = x := by
  induction l generalizing i with
  | nil => simp at h
  | cons a t ih =>
    cases i with
    | zero => rfl
    | succ j => simpa using ih j (by simpa using h)

theorem listSet_oob {α : Type} (l : List α) (i : Nat) (x : α)
    (h : l.length ≤ i) : l.set i x = l := by
  induction l generalizing i with
  | nil => rfl
  | cons a t ih =>
    cases i with
    | zero => simp at h
    | succ j => simpa using ih j (by simpa using h)

theorem setAdd_mem {α : Type} [DecidableEq α] (l : List α) (x : α) :
    x ∈ setAdd l x := by
  by_cases h : x ∈ l <;> simp [setAdd, h]

theorem setAdd_idem {α : Type} [DecidableEq α] (l : List α) (x : α) :
    setAdd (setAdd l x) x = setAdd l x := by
  rw [show setAdd (setAdd l x) x
      = if x ∈ setAdd l x then setAdd l x else setAdd l x ++ [x] from rfl,
    if_pos (setAdd_mem l x)]

theorem setAdd_nodup {α : Type} [DecidableEq α] (l : List α) (x : α)
    (h : l.Nodup) : (setAdd l x).Nodup := by
  by_cases hm : x ∈ l
  · simpa [setAdd, hm] using h
  · simp only [setAdd, hm, if_false]
    rw [List.nodup_append]
    refine ⟨h, List.nodup_singleton x, ?_⟩
    intro a ha hax
    rw [List.mem_singleton] at hax
    subst hax
    exact hm ha

theorem setDelete_not_mem {α : Type} [DecidableEq α] (l : List α) (x : α) :
    x ∉ setDelete l x := by
  simp [setDelete]

/-! ### Claims about `Subject.dispatch` and `Subject.complete` -/

/-- A `Subject` with one registered external value callback (id 0) and an
otherwise quiescent machine. -/
def cxMach : Mach Nat :=
  { subjects := [⟨[0], []⟩], dcbs := [DBeh.ext 0], ccbs := [],
    queue := [], log := [], nextPid := 0 }

/-- Claim C1, counterexample.  Callback 0 is registered when `dispatch(5)` is
called (which schedules the deferred fan-out task), the caller then invokes
the subscription's Unsubscribe before the microtask runs, and the fan-out then
invokes the callback zero times — the final log holds only the promise
resolution.  This refutes "invokes every value callback registered at the time
the emission was scheduled exactly once": the set is read when the deferred
task runs, not when it was scheduled. -/
theorem dispatch_schedule_time_refuted :
    (getSubj (Subject.dispatch 0 5 cxMach).1 0).dispatchs = [0]
    ∧ (Subject.dispatch 0 5 cxMach).1.queue = [MTask.fanValue 0 5 0]
    ∧ (step (Subject.unsubscribe 0 0 0 (Subject.dispatch 0 5 cxMach).1)).log
        = [Event.resolved 0]
    ∧ ((step (Subject.unsubscribe 0 0 0 (Subject.dispatch 0 5 cxMach).1)).log).count
        (Event.value 0 5) = 0 :=
  ⟨rfl, rfl, rfl, rfl⟩

/-- Claim C1, amended.  A `dispatch(v)` call only schedules a fan-out task
and returns its promise; when that task reaches the head of the queue, it
invokes every value callback registered on the subject at that moment —
exactly the schedule-time registrations minus those unsubscribed and plus
those subscribed before the task runs — once each, in registration order
(external callbacks logging their invocation), and resolves the promise of
that `dispatch` call strictly after all of them; the membership sets are
untouched. -/
theorem dispatch_fanout_order {V : Type} (m : Mach V) (s : Nat) (v : V)
    (pid : Nat) (rest : List (MTask V)) :
    (Subject.dispatch s v m).1.queue = m.queue ++ [MTask.fanValue s v m.nextPid]
    ∧ (Subject.dispatch s v m).1.subjects = m.subjects
    ∧ (Subject.dispatch s v m).2 = m.nextPid
    ∧ (step { m with queue := MTask.fanValue s v pid :: rest }).log
        = m.log ++ (getSubj m s).dispatchs.filterMap (extValue m.dcbs v)
            ++ [Event.resolved pid]
    ∧ (step { m with queue := MTask.fanValue s v pid :: rest }).subjects
        = m.subjects :=
  ⟨rfl, rfl, rfl, (step_fanValue m s v pid rest).1,
    (step_fanValue m s v pid rest).2.1⟩

/-- Claim C8.  Running the fan-out scheduled by `Subject.complete` invokes
every currently-registered completion callback once, in registration order,
then resolves the promise; it removes no subscriber (the `subjects` field —
both membership sets — is unchanged, as are the callback tables), and
further `dispatch`/`complete` calls on the subject are not prevented: both
still enqueue their fan-out normally afterwards. -/
theorem complete_fanout_frame {V : Type} (m : Mach V) (s : Nat) (pid : Nat)
    (rest : List (MTask V)) :
    (step { m with queue := MTask.fanComplete s pid :: rest }).log
      = m.log ++ (getSubj m s).completes.filterMap (extCompleted m.ccbs)
          ++ [Event.resolved pid]
    ∧ (step { m with queue := MTask.fanComplete s pid :: rest }).subjects
        = m.subjects
    ∧ (step { m with queue := MTask.fanComplete s pid :: rest }).dcbs = m.dcbs
    ∧ (step { m with queue := MTask.fanComplete s pid :: rest }).ccbs = m.ccbs
    ∧ (∀ v : V,
        (Subject.dispatch s v
            (step { m with queue := MTask.fanComplete s pid :: rest })).1.queue
          = (step { m with queue := MTask.fanComplete s pid :: rest }).queue
              ++ [MTask.fanValue s v
                    (step { m with queue := MTask.fanComplete s pid :: rest }).nextPid])
    ∧ (Subject.complete s
          (step { m with queue := MTask.fanComplete s pid :: rest })).1.queue
        = (step { m with queue := MTask.fanComplete s pid :: rest }).queue
            ++ [MTask.fanComplete s
                  (step { m with queue := MTask.fanComplete s pid :: rest }).nextPid] :=
  ⟨(step_fanComplete m s pid rest).1, (step_fanComplete m s pid rest).2.1,
    (step_fanComplete m s pid rest).2.2.1, (step_fanComplete m s pid rest).2.2.2,
    fun _ => rfl, rfl⟩

/-! ### Claims about `Signal.loop` -/

/-- Claim C2.  The Unsubscribe that `Signal.loop`'s subscribe returns to its
caller is `() => { source.complete(); unsubSink(); }` (src/main.ts:43-46):
invoking it first calls `complete` on the internal hub — which enqueues the
completion fan-out for the hub — and only then runs the sink subscription's
own unsubscribe, in that order, for every handler and every machine state. -/
theorem loop_unsubscribe_order {V : Type} (handler : Nat → Sink V)
    (extD extC : Nat) (m mm : Mach V) :
    (Signal.loopSubscribe handler extD extC m).2 mm
      = ((handler m.subjects.length)
          (allocRoutes m.subjects.length (Signal.loopBuild extD extC m).1).1
          (allocRoutes m.subjects.length (Signal.loopBuild extD extC m).1).2.1
          (allocRoutes m.subjects.length (Signal.loopBuild extD extC m).1).2.2).2
        ((Subject.complete m.subjects.length mm).1)
    ∧ (Subject.complete m.subjects.length mm).1.queue
        = mm.queue ++ [MTask.fanComplete m.subjects.length mm.nextPid] :=
  ⟨rfl, rfl⟩

/-- Registering the caller's callbacks on a freshly appended hub yields
exactly the two singleton membership sets. -/
theorem subscribe_fresh {V : Type} (extD extC : Nat) (m : Mach V) :
    getSubj (Subject.subscribe m.subjects.length extD extC
      { m with subjects := m.subjects ++ [(⟨[], []⟩ : SubjSt)] }) m.subjects.length
    = ⟨[extD], [extC]⟩ := by
  unfold Subject.subscribe setSubj getSubj
  rw [show ({ m with subjects := m.subjects ++ [(⟨[], []⟩ : SubjSt)] } : Mach V).subjects
      = m.subjects ++ [(⟨[], []⟩ : SubjSt)] from rfl]
  rw [listGetD_append_length m.subjects ⟨[], []⟩ ⟨[], []⟩]
  rw [listGetD_set_self _ _ _ _ (by simp)]
  simp [setAdd]

/-- Claim C3.  Subscribing to `Signal.loop(handler)` (src/main.ts:33-41):
a fresh `Subject` is created (its index is the previously unused
`m.subjects.length`) and the caller's value/completion callbacks are
registered on it; the handler and its sink are processed only by the phase
that runs after that registration has been awaited; the two callbacks the
sink is subscribed with are freshly allocated routed callbacks of the hub,
and invoking the routed value callback is exactly `Subject.dispatch` (emit)
on the hub while invoking the routed completion callback is exactly
`Subject.complete` on the hub. -/
theorem loop_subscribe_order {V : Type} (handler : Nat → Sink V)
    (extD extC : Nat) (m : Mach V) :
    (Signal.loopBuild extD extC m).2 = m.subjects.length
    ∧ (Signal.loopBuild extD extC m).1.subjects.length = m.subjects.length + 1
    ∧ getSubj (Signal.loopBuild extD extC m).1 m.subjects.length
        = ⟨[extD], [extC]⟩
    ∧ Signal.loopSubscribe handler extD extC m
        = Signal.loopAttach handler (Signal.loopBuild extD extC m).2
            (Signal.loopBuild extD extC m).1
    ∧ (∀ mx : Mach V,
        (allocRoutes m.subjects.length mx).2.2.dcbs[(allocRoutes m.subjects.length mx).1]?
          = some (DBeh.route m.subjects.length)
        ∧ (allocRoutes m.subjects.length mx).2.2.ccbs[(allocRoutes m.subjects.length mx).2.1]?
          = some (CBeh.route m.subjects.length))
    ∧ (∀ (mx : Mach V) (i : Nat) (v : V),
        mx.dcbs[i]? = some (DBeh.route m.subjects.length) →
        runDCb v mx i = (Subject.dispatch m.subjects.length v mx).1)
    ∧ (∀ (mx : Mach V) (i : Nat),
        mx.ccbs[i]? = some (CBeh.route m.subjects.length) →
        runCCb mx i = (Subject.complete m.subjects.length mx).1) := by
  refine ⟨rfl, ?_, ?_, rfl, ?_, ?_, ?_⟩
  · have h := awaitTurn_preserves
      (Subject.subscribe m.subjects.length extD extC
        { m with subjects := m.subjects ++ [(⟨[], []⟩ : SubjSt)] })
    show (awaitTurn _).subjects.length = m.subjects.length + 1
    rw [h.1]
    simp [Subject.subscribe, setSubj]
  · have h := awaitTurn_preserves
      (Subject.subscribe m.subjects.length extD extC
        { m with subjects := m.subjects ++ [(⟨[], []⟩ : SubjSt)] })
    show getSubj (awaitTurn _) m.subjects.length = (⟨[extD], [extC]⟩ : SubjSt)
    unfold getSubj
    rw [h.1]
    have h2 := subscribe_fresh extD extC m
    unfold getSubj at h2
    exact h2
  · intro mx
    constructor
    · show (mx.dcbs ++ [DBeh.route m.subjects.length])[mx.dcbs.length]?
        = some (DBeh.route m.subjects.length)
      simp
    · show (mx.ccbs ++ [CBeh.route m.subjects.length])[mx.ccbs.length]?
        = some (CBeh.route m.subjects.length)
      simp
  · intro mx i v h
    simp [runDCb, h]
  · intro mx i h
    simp [runCCb, h]

/-- Witness for C3 at a concrete input: on the identity-loop machine the
first routed callback id is 1, its table entry routes to hub 0, and invoking
it is exactly an emit on hub 0. -/
theorem loop_subscribe_order_witness :
    (loopMach Nat).dcbs[1]? = some (DBeh.route 0)
    ∧ runDCb 7 (loopMach Nat) 1 = (Subject.dispatch 0 7 (loopMach Nat)).1 :=
  ⟨by decide,
    (loop_subscribe_order identityHandler 0 0 (initMach Nat)).2.2.2.2.2.1
      (loopMach Nat) 1 7 (by decide)⟩

/-- The identity-loop machine fully evaluated: hub 0 carries the external
consumer (id 0) and the routed cycle callback (id 1) in both sets. -/
theorem loopMach_eq (V : Type) :
    loopMach V = ⟨[⟨[0, 1], [0, 1]⟩], [DBeh.ext 0, DBeh.route 0],
      [CBeh.ext 0, CBeh.route 0], [], [], 0⟩ :=
  rfl

/-- The cycle state of the identity loop while a value `v` circulates: hub 0
has the external and routed value callbacks registered (in that order) and
exactly one fan-out for `v` is pending. -/
def loopReady {V : Type} (v : V) (m : Mach V) : Prop :=
  m.subjects = [⟨[0, 1], [0, 1]⟩]
  ∧ m.dcbs = [DBeh.ext 0, DBeh.route 0]
  ∧ ∃ pid, m.queue = [MTask.fanValue 0 v pid]

/-- One round trip of the identity loop: the pending fan-out delivers `v` to
the external consumer exactly once, the routed callback re-emits `v` into the
hub (scheduling the next round trip), and the cycle state is re-established. -/
theorem loopReady_step {V : Type} [DecidableEq V] (v : V) (m : Mach V)
    (h : loopReady v m) :
    loopReady v (step m)
    ∧ (step m).log.count (Event.value 0 v) = m.log.count (Event.value 0 v) + 1 := by
  obtain ⟨hs, hd, pid, hq⟩ := h
  obtain ⟨subs, dcbs, ccbs, queue, log, np⟩ := m
  simp only [Mach.mk.injEq] at hs hd hq
  subst hs
  subst hd
  subst hq
  constructor
  · refine ⟨?_, ?_, np, ?_⟩ <;>
      simp [step, runTask, getSubj, runDCb, Subject.dispatch]
  · simp [step, runTask, getSubj, runDCb, Subject.dispatch, List.count_append]

/-- After `k` round trips, `v` has reached the external consumer exactly `k`
times: once per round trip, never dropped, never duplicated. -/
theorem loopReady_stepN {V : Type} [DecidableEq V] (v : V) (k : Nat) (m : Mach V)
    (h : loopReady v m) :
    (stepN k m).log.count (Event.value 0 v) = m.log.count (Event.value 0 v) + k := by
  induction k generalizing m with
  | zero => rfl
  | succ j ih =>
    obtain ⟨h1, h2⟩ := loopReady_step v m h
    show (stepN j (step m)).log.count (Event.value 0 v) = _
    rw [ih (step m) h1, h2]
    omega

/-- Claim C4.  On the loop with the identity handler, a value `v` injected
into the cycle is re-emitted to the external subscriber exactly once per round
trip: after `k` event-loop steps (each processing exactly the one pending
fan-out, i.e. one round trip), the external consumer has observed `v` exactly
`k` times — so in particular a single round trip delivers it exactly once,
with no drop and no duplication. -/
theorem loop_identity_roundtrips {V : Type} [DecidableEq V] (v : V) (k : Nat) :
    ((stepN k (Subject.dispatch 0 v (loopMach V)).1).log).count (Event.value 0 v)
      = k := by
  have hready : loopReady v (Subject.dispatch 0 v (loopMach V)).1 := by
    refine ⟨?_, ?_, 0, ?_⟩ <;> simp [loopMach_eq, Subject.dispatch]
  rw [loopReady_stepN v k _ hready]
  simp [loopMach_eq, Subject.dispatch]

/-! ### Claim about the `Subject`'s identity-keyed membership sets -/

/-- Updating the same subject twice with an update that is idempotent at the
current sets is the same as updating it once. -/
theorem setSubj_twice {V : Type} (m : Mach V) (s : Nat) (f : SubjSt → SubjSt)
    (hs : s < m.subjects.length)
    (hf : f (f (m.subjects.getD s ⟨[], []⟩)) = f (m.subjects.getD s ⟨[], []⟩)) :
    setSubj (setSubj m s f) s f = setSubj m s f := by
  obtain ⟨subs, dcbs, ccbs, q, l, np⟩ := m
  simp only [setSubj, getSubj, Mach.mk.injEq, and_true, true_and] at hf ⊢
  rw [listGetD_set_self _ _ _ _ hs, List.set_set, hf]

/-- Claim C10.  The hub's membership is held in `Set`s keyed by callback
function identity (src/main.ts:84-95): subscribing the same pair of callbacks
a second time leaves the machine completely unchanged (no new registration —
so a fan-out still invokes each callback at most once, the sets staying
duplicate-free), and invoking the Unsubscribe of either subscription (both
delete the same two members) removes the value callback and the completion
callback for both subscriptions. -/
theorem subject_identity_dedup {V : Type} (s d c : Nat) (m : Mach V) :
    Subject.subscribe s d c (Subject.subscribe s d c m)
      = Subject.subscribe s d c m
    ∧ ((getSubj m s).dispatchs.Nodup →
        (getSubj (Subject.subscribe s d c m) s).dispatchs.Nodup)
    ∧ ((getSubj m s).completes.Nodup →
        (getSubj (Subject.subscribe s d c m) s).completes.Nodup)
    ∧ d ∉ (getSubj (Subject.unsubscribe s d c
        (Subject.subscribe s d c (Subject.subscribe s d c m))) s).dispatchs
    ∧ c ∉ (getSubj (Subject.unsubscribe s d c
        (Subject.subscribe s d c (Subject.subscribe s d c m))) s).completes := by
  by_cases hs : s < m.subjects.length
  · have hget : ∀ (f : SubjSt → SubjSt),
        getSubj (setSubj m s f) s = f (getSubj m s) := by
      intro f
      unfold setSubj getSubj
      exact listGetD_set_self _ _ _ _ hs
    refine ⟨?_, ?_, ?_, ?_, ?_⟩
    · rw [show Subject.subscribe s d c (Subject.subscribe s d c m)
          = setSubj (setSubj m s
              (fun st => ⟨setAdd st.dispatchs d, setAdd st.completes c⟩)) s
              (fun st => ⟨setAdd st.dispatchs d, setAdd st.completes c⟩) from rfl]
      rw [setSubj_twice m s _ hs (by simp [setAdd_idem])]
      rfl
    · intro hnd
      rw [show (Subject.subscribe s d c m) = setSubj m s _ from rfl, hget]
      exact setAdd_nodup _ d hnd
    · intro hnd
      rw [show (Subject.subscribe s d c m) = setSubj m s _ from rfl, hget]
      exact setAdd_nodup _ c hnd
    · have hget2 : ∀ (f : SubjSt → SubjSt) (mm : Mach V), s < mm.subjects.length →
          getSubj (setSubj mm s f) s = f (getSubj mm s) := by
        intro f mm hmm
        unfold setSubj getSubj
        exact listGetD_set_self _ _ _ _ hmm
      rw [show Subject.unsubscribe s d c
          (Subject.subscribe s d c (Subject.subscribe s d c m))
          = setSubj (Subject.subscribe s d c (Subject.subscribe s d c m)) s _ from rfl,
        hget2 _ _ (by simpa [Subject.subscribe, setSubj] using hs)]
      exact setDelete_not_mem _ d
    · have hget2 : ∀ (f : SubjSt → SubjSt) (mm : Mach V), s < mm.subjects.length →
          getSubj (setSubj mm s f) s = f (getSubj mm s) := by
        intro f mm hmm
        unfold setSubj getSubj
        exact listGetD_set_self _ _ _ _ hmm
      rw [show Subject.unsubscribe s d c
          (Subject.subscribe s d c (Subject.subscribe s d c m))
          = setSubj (Subject.subscribe s d c (Subject.subscribe s d c m)) s _ from rfl,
        hget2 _ _ (by simpa [Subject.subscribe, setSubj] using hs)]
      exact setDelete_not_mem _ c
  · have hoob : ∀ (f : SubjSt → SubjSt), setSubj m s f = m := by
      intro f
      unfold setSubj
      rw [listSet_oob _ _ _ (by omega)]
    have hsub : Subject.subscribe s d c m = m := hoob _
    have hoob2 : getSubj m s = ⟨[], []⟩ := by
      unfold getSubj
      rw [List.getD_eq_getElem?_getD, List.getElem?_eq_none (by omega)]
      rfl
    refine ⟨by rw [hsub, hsub], by rw [hsub]; exact id, by rw [hsub]; exact id, ?_, ?_⟩
    · rw [hsub, hsub, show Subject.unsubscribe s d c m = m from hoob _, hoob2]
      simp
    · rw [hsub, hsub, show Subject.unsubscribe s d c m = m from hoob _, hoob2]
      simp

/-- Witness for C10 at a concrete input: the singleton set stays
duplicate-free after re-subscribing the same callbacks. -/
theorem subject_identity_dedup_witness :
    (getSubj cxMach 0).dispatchs.Nodup
    ∧ (getSubj (Subject.subscribe 0 0 0 cxMach) 0).dispatchs.Nodup :=
  ⟨by decide, (subject_identity_dedup 0 0 0 cxMach).2.1 (by decide)⟩
